import Mathlib

/-!
Verification of the gitguard scan-orchestration pipeline.

Shallow embedding of the Go sources:
  * `internal/gitleaks` (Detector.ScanCommit, getCommitDiff, scanChangedFiles,
    shouldSkipFile, buildScanResult),
  * `internal/app` commit handler (shouldSkipEvent, scanCommit, createCheckRun,
    updateCheckRunWithError, updateCheckRunWithResults, buildCheckRunOutput),
  * `internal/handler` full-repository scan (FullRepoScanHandler.Handle,
    scanFullRepository, scanGitRepository, createSecurityIssue,
    findExistingSecurityIssue, buildIssueBody, shouldSkipFile),
  * `internal/constants`.

External effects (the GitHub API client, the git clone, the gitleaks
detection engine) are modelled as explicit environments; every outward call
an orchestrator makes is recorded in a call log so that claims about which
calls happen (and with which arguments and context) are provable.
-/

namespace GG

/-! ## String helpers

Core `String` functions such as `String.startsWith` do not reduce in the
kernel, so the byte/char-level operations used by the Go code
(`strings.HasPrefix`, `strings.HasSuffix`, `strings.Contains`,
`strings.TrimPrefix`, `strings.ToLower`) are modelled on `List Char`. -/

/-- Models Go `strings.HasPrefix`. -/
def strStartsWith (s pre : String) : Bool :=
  pre.data.isPrefixOf s.data

/-- Models Go `strings.HasSuffix`. -/
def strEndsWith (s suf : String) : Bool :=
  suf.data.isSuffixOf s.data

/-- Helper for `strContains`: does `pat` occur as a contiguous run of `s`? -/
def charsContain (s pat : List Char) : Bool :=
  match s with
  | [] => pat.isEmpty
  | _ :: t => pat.isPrefixOf s || charsContain t pat

/-- Models Go `strings.Contains`. -/
def strContains (s pat : String) : Bool :=
  charsContain s.data pat.data

/-- Models Go `strings.TrimPrefix`. -/
def trimPref (s pre : String) : String :=
  if pre.data.isPrefixOf s.data then ⟨s.data.drop pre.data.length⟩ else s

/-- Models Go `strings.ToLower` (the file-extension tables the code compares
against are ASCII, so ASCII case-folding is the relevant fragment). -/
def strToLower (s : String) : String :=
  ⟨s.data.map Char.toLower⟩

/-! ## Data model (internal/gitleaks and the GitHub payload fragments used) -/

/-- A gitleaks `report.Finding`, restricted to the fields the repository
reads: `RuleID`, `File`, `StartLine`. -/
structure Finding where
  ruleID : String
  file : String
  startLine : Int
deriving DecidableEq

/-- Models `gitleaks.ScanResult`. -/
structure ScanResult where
  hasLeaks : Bool
  leakCount : Nat
  leakSummary : List String
deriving DecidableEq

/-- A `github.CommitFile`, restricted to the fields the code reads:
`Filename`, `Status`, `Changes`. -/
structure CommitFile where
  filename : String
  status : String
  changes : Nat
deriving DecidableEq

/-- A `github.CommitsComparison`, restricted to its `Files` list. -/
structure Comparison where
  files : List CommitFile
deriving DecidableEq

/-- The `gitleaks.GitHubClient` interface: `CompareCommits` (base, head) and
`GetContents` (path, ref).  `getContents` returns the decoded text, so a
fetch failure and a decode failure are both an `Except.error`. -/
structure GHClient where
  compare : String → String → Except String Comparison
  getContents : String → String → Except String String

/-! ## Constants (internal/constants and the app-package copies) -/

def checkRunName : String := "gitguard/secret-scan"
def maxFileChanges : Nat := 1000
def emptyTreeSHA : String := "4b825dc642cb6eb9a060e54bf8d69288fbee4904"
def branchRefPref : String := "refs/heads/"
def fileStatusRemoved : String := "removed"

def statusInProgress : String := "in_progress"
def statusCompleted : String := "completed"
def conclusionSuccess : String := "success"
def conclusionFailure : String := "failure"

def checkRunTitleInProgress : String := "GitGuard Secret Scan"
def checkRunTitleError : String := "GitGuard Secret Scan - Error"
def checkRunTitleClean : String := "GitGuard Secret Scan - Clean"
def checkRunTitleSecrets : String := "GitGuard Secret Scan - Secrets Detected"

def checkRunSummaryInProgress : String :=
  "🔍 Scanning commit for secrets and sensitive information..."
def checkRunSummaryError : String :=
  "❌ Failed to scan commit for secrets. Please try again."
def checkRunSummaryClean : String :=
  "✅ No secrets or sensitive information detected in this commit."

/-- The part of `CheckRunSummarySecrets` before the `%d` verb. -/
def summarySecretsPre : String := "🚨 **"

/-- The part of `CheckRunSummarySecrets` after the `%d` verb. -/
def summarySecretsPost : String :=
  " secret(s) detected** in this commit. Please review and remove sensitive information."

/-- Models `fmt.Sprintf(CheckRunSummarySecrets, n)`. -/
def sprintfSecretsSummary (n : Nat) : String :=
  summarySecretsPre ++ toString n ++ summarySecretsPost

def checkRunSummaryTypes : String := "\n\n**Types of secrets found:**\n"

def leakSummaryPref : String := "- "

def issueTitleConst : String := "🚨 GitGuard: Secrets Detected in Repository"
def issueLabelConst : String := "security"

/-- The constant `constants.FullScanTimeout` is `60 * time.Second`; recorded in seconds. -/
def fullScanTimeoutSeconds : Nat := 60

/-! ## Detector (internal/gitleaks, `part_010`) -/

/-- Models `Detector.shouldSkipFile`: skip removed files and files with more than
`MaxFileChanges` changes. -/
def shouldSkipFile (f : CommitFile) : Bool :=
  f.status == fileStatusRemoved || decide (maxFileChanges < f.changes)

/-- The observable outcome of `Detector.scanChangedFiles`: the accumulated
findings and `filesToScan` counter of the source, plus a log of the files
whose content was requested (`GetContents` issued) and of the files whose
content was actually handed to `DetectString`. -/
structure ScanFilesOut where
  findings : List Finding
  filesToScan : Nat
  fetched : List String
  scanned : List String
deriving DecidableEq

/-- Models `Detector.scanChangedFiles`: per file, skip via `shouldSkipFile`, fetch
content (a failed fetch or decode is logged and skipped), skip empty
content, otherwise run the detector.  `detect` stands for
`d.detector.DetectString`. -/
def scanChangedFilesRun (detect : String → List Finding) (c : GHClient) (sha : String) :
    List CommitFile → ScanFilesOut
  | [] => ⟨[], 0, [], []⟩
  | f :: rest =>
    let out := scanChangedFilesRun detect c sha rest
    if shouldSkipFile f then out
    else
      match c.getContents f.filename sha with
      | .error _ => { out with fetched := f.filename :: out.fetched }
      | .ok content =>
        if content = "" then { out with fetched := f.filename :: out.fetched }
        else
          { findings := detect content ++ out.findings
            filesToScan := out.filesToScan + 1
            fetched := f.filename :: out.fetched
            scanned := f.filename :: out.scanned }

/-- Models `Detector.getCommitDiff`, with the list of `(base, head)` comparison
requests it issues recorded alongside the result. -/
def getCommitDiffRun (c : GHClient) (sha : String) :
    Except String Comparison × List (String × String) :=
  match c.compare (sha ++ "~1") sha with
  | .ok comp => (.ok comp, [(sha ++ "~1", sha)])
  | .error _ =>
    match c.compare emptyTreeSHA sha with
    | .ok comp => (.ok comp, [(sha ++ "~1", sha), (emptyTreeSHA, sha)])
    | .error e =>
      (.error ("failed to get commit diff: " ++ e), [(sha ++ "~1", sha), (emptyTreeSHA, sha)])

/-- Models `Detector.buildScanResult`.  The Go code collects the distinct non-empty
rule IDs in a `map[string]bool` whose iteration order is unspecified; the
model picks the deterministic order `List.dedup` gives. -/
def buildScanResult (findings : List Finding) : ScanResult :=
  { hasLeaks := decide (0 < findings.length)
    leakCount := findings.length
    leakSummary :=
      (((findings.map Finding.ruleID).filter (fun r => r != "")).dedup).map
        (fun r => leakSummaryPref ++ r) }

/-- Models `Detector.ScanCommit`: diff resolution, per-file scanning, aggregation.
Returns the result, the comparison-request log and the content-fetch log. -/
def scanCommitDet (detect : String → List Finding) (c : GHClient) (sha : String) :
    Except String ScanResult × List (String × String) × List String :=
  match getCommitDiffRun c sha with
  | (.error e, log) => (.error e, log, [])
  | (.ok comp, log) =>
    let out := scanChangedFilesRun detect c sha comp.files
    (.ok (buildScanResult out.findings), log, out.fetched)

/-! ## Commit scan orchestrator (internal/app, `part_008`) -/

/-- A GitHub check-run API call, as issued by the commit handler. -/
inductive CheckCall where
  | create (name headSHA status title summary : String)
  | update (id : Nat) (name status conclusion title summary : String)
deriving DecidableEq

/-- The environment of one `CommitHandler.scanCommit` run: the outcome of
`client.Checks.CreateCheckRun` (the created check run's ID), of
`h.detector.ScanCommit`, and of the final `client.Checks.UpdateCheckRun`. -/
structure CommitScanEnv where
  createCheckRun : Except String Nat
  scan : Except String ScanResult
  update : Except String Unit

/-- Models `CommitHandler.buildCheckRunOutput`. -/
def buildCheckRunOutput (r : ScanResult) : String × String × String :=
  if r.hasLeaks then
    let summary := sprintfSecretsSummary r.leakCount
    let summary :=
      if 0 < r.leakSummary.length then
        summary ++ checkRunSummaryTypes ++ String.intercalate "\n" r.leakSummary
      else summary
    (conclusionFailure, checkRunTitleSecrets, summary)
  else (conclusionSuccess, checkRunTitleClean, checkRunSummaryClean)

/-- Models `CommitHandler.scanCommit`: create the check run (abort on failure), scan,
and update the check run — with `updateCheckRunWithError` on a scan failure
(whose own API result is only logged) or `updateCheckRunWithResults` on
success.  Every check-run API call issued is recorded. -/
def scanCommitApp (env : CommitScanEnv) (sha : String) : Except String Unit × List CheckCall :=
  let createCall :=
    CheckCall.create checkRunName sha statusInProgress checkRunTitleInProgress
      checkRunSummaryInProgress
  match env.createCheckRun with
  | .error e => (.error ("failed to create check run: " ++ e), [createCall])
  | .ok id =>
    match env.scan with
    | .error e =>
      (.error ("failed to scan commit with gitleaks: " ++ e),
       [createCall,
        CheckCall.update id checkRunName statusCompleted conclusionFailure
          checkRunTitleError checkRunSummaryError])
    | .ok r =>
      let out := buildCheckRunOutput r
      let updCall := CheckCall.update id checkRunName statusCompleted out.1 out.2.1 out.2.2
      match env.update with
      | .ok _ => (.ok (), [createCall, updCall])
      | .error e => (.error ("failed to update check run: " ++ e), [createCall, updCall])

/-- A push event, restricted to the fields the handlers read: the ref, the
commit SHAs, and the repository's default branch. -/
structure PushEvent where
  ref : String
  commits : List String
  defaultBranch : String
deriving DecidableEq

/-- Models `CommitHandler.shouldSkipEvent`: skip pushes with no commits and
non-branch refs. -/
def shouldSkipEvent (e : PushEvent) : Bool :=
  e.commits.length == 0 || !(strStartsWith e.ref branchRefPref)

/-- The environment of one `CommitHandler.Handle` run: the outcome of
`NewInstallationClient` and, per commit SHA, the per-commit environment. -/
structure CommitHandlerEnv where
  client : Except String Unit
  perCommit : String → CommitScanEnv

/-- Models `CommitHandler.Handle` after payload parsing: filter, create the
installation client, then scan each commit in order; one commit's failure is
logged and the loop continues, so `processCommits` always returns nil. -/
def commitHandlerHandle (env : CommitHandlerEnv) (e : PushEvent) :
    Except String Unit × List CheckCall :=
  if shouldSkipEvent e then (.ok (), [])
  else
    match env.client with
    | .error err => (.error ("failed to create installation client: " ++ err), [])
    | .ok _ => (.ok (), (e.commits.map (fun sha => (scanCommitApp (env.perCommit sha) sha).2)).flatten)

/-! ## Full repository scan (internal/handler) -/

/-- The binary file extensions skipped by the full-repository scan. -/
def binaryExtensions : List String :=
  [".jpg", ".jpeg", ".png", ".gif", ".bmp", ".ico", ".svg",
   ".pdf", ".doc", ".docx", ".xls", ".xlsx", ".ppt", ".pptx",
   ".zip", ".tar", ".gz", ".bz2", ".7z", ".rar",
   ".exe", ".dll", ".so", ".dylib",
   ".mp3", ".mp4", ".avi", ".mov", ".wmv",
   ".woff", ".woff2", ".ttf", ".eot"]

/-- The path substrings skipped by the full-repository scan. -/
def skipPaths : List String :=
  ["node_modules/", "vendor/", ".git/", "dist/", "build/",
   "target/", "bin/", "obj/", ".gradle/", "__pycache__/"]

/-- A file of the cloned tree (`object.File`): its path, byte size, and the
outcome of reading its contents. -/
structure TreeFile where
  name : String
  size : Nat
  content : Except String String

/-- Models `FullRepoScanHandler.shouldSkipFile` (the full-tree filter, distinct from
the diff-mode `Detector.shouldSkipFile`): size over `MaxFileChanges` bytes,
binary extension on the lowercased name, or a skip-path substring. -/
def shouldSkipTreeFile (f : TreeFile) : Bool :=
  decide (maxFileChanges < f.size)
    || binaryExtensions.any (fun ext => strEndsWith (strToLower f.name) ext)
    || skipPaths.any (fun p => strContains f.name p)

/-- The `tree.Files().ForEach` loop of `scanGitRepository`: skip filtered
files, fail on the first unreadable file, otherwise detect and stamp the
file path into each finding. -/
def scanTreeFiles (detect : String → List Finding) : List TreeFile → Except String (List Finding)
  | [] => .ok []
  | f :: rest =>
    if shouldSkipTreeFile f then scanTreeFiles detect rest
    else
      match f.content with
      | .error e => .error ("failed to read file contents: " ++ e)
      | .ok content =>
        match scanTreeFiles detect rest with
        | .error e => .error e
        | .ok more => .ok ((detect content).map (fun fd => { fd with file := f.name }) ++ more)

/-- Models `FullRepoScanHandler.scanGitRepository` (head/commit/tree resolution of
the in-memory clone elided: the environment supplies the tree's files). -/
def scanGitRepo (detect : String → List Finding) (files : List TreeFile) :
    Except String (List Finding) :=
  match scanTreeFiles detect files with
  | .error e => .error ("failed to scan repository files: " ++ e)
  | .ok fs => .ok fs

/-- Which Go `context.Context` value an outward call received: the handler's
inbound context, or the context derived from it by
`context.WithTimeout(ctx, constants.FullScanTimeout)`. -/
inductive Ctx where
  | base
  | derived
deriving DecidableEq

/-- A GitHub issue, restricted to its title. -/
structure Issue where
  title : String
deriving DecidableEq

/-- An outward call of the full-repository scan handler, tagged with the
context it was issued under. -/
inductive ApiCall where
  | repoGet (ctx : Ctx)
  | createToken (ctx : Ctx)
  | cloneRepo (ctx : Ctx)
  | listIssues (ctx : Ctx) (state : String) (labels : List String) (perPage : Nat)
  | createIssue (ctx : Ctx) (title body : String) (labels : List String)
deriving DecidableEq

/-- The context a call was issued under. -/
def ApiCall.ctxOf : ApiCall → Ctx
  | .repoGet c => c
  | .createToken c => c
  | .cloneRepo c => c
  | .listIssues c _ _ _ => c
  | .createIssue c _ _ _ => c

/-- Is this one of the issue API calls (duplicate search or creation)? -/
def ApiCall.isIssueCall : ApiCall → Bool
  | .listIssues _ _ _ _ => true
  | .createIssue _ _ _ _ => true
  | _ => false

/-- The environment of one `FullRepoScanHandler.Handle` run: outcomes of
client creation, `Repositories.Get` (the clone URL), the installation token,
the clone (the tree's files), the detector, `Issues.ListByRepo`,
`Issues.Create`, and whether the derived context's deadline had been
exceeded by the time `Handle` inspects `ctx.Err()`. -/
structure FullScanEnv where
  client : Except String Unit
  repoGet : Except String String
  token : Except String String
  cloneRepo : Except String (List TreeFile)
  detect : String → List Finding
  listIssues : Except String (List Issue)
  createIssue : Except String Nat
  deadlineExceeded : Bool

/-- Models `FullRepoScanHandler.findExistingSecurityIssue`: list open issues with
the "security" label (first page of 10) and return the first whose title is
exactly the fixed issue title. -/
def findExistingSecurityIssue (env : FullScanEnv) (ctx : Ctx) :
    Except String (Option Issue) × List ApiCall :=
  let call := ApiCall.listIssues ctx "open" [issueLabelConst] 10
  match env.listIssues with
  | .error e => (.error ("failed to list repository issues: " ++ e), [call])
  | .ok issues => (.ok (issues.find? (fun i => i.title == issueTitleConst)), [call])

/-- The rule-ID label a finding is grouped under in the issue body: an empty
`RuleID` is rendered as the literal `"unknown"`. -/
def normRuleID (f : Finding) : String :=
  if f.ruleID = "" then "unknown" else f.ruleID

/-- The distinct rule labels occurring in the findings.  The Go code groups
into a `map[string][]Finding` whose iteration order is unspecified; the
model picks the deterministic order `List.dedup` gives. -/
def issueRuleLabels (findings : List Finding) : List String :=
  (findings.map normRuleID).dedup

/-- One line of the "Detected Secret Types" section. -/
def issueRuleLine (findings : List Finding) (r : String) : String :=
  "- **" ++ r ++ "**: " ++ toString (findings.countP (fun f => normRuleID f == r))
    ++ " occurrence(s)\n"

/-- One line of the "File Locations" section: an empty file path is rendered
as the literal `"unknown file"`. -/
def issueLocLine (f : Finding) : String :=
  "- `" ++ (if f.file = "" then "unknown file" else f.file) ++ "` (line "
    ++ toString f.startLine ++ ")\n"

/-- The fixed text of the issue body before the total-findings count. -/
def issueBodyHeader : String :=
  "## 🚨 Security Alert: Secrets Detected\n\n"
    ++ "GitGuard has detected potential secrets in your repository during a full scan. "
    ++ "Please review these findings and take appropriate action.\n\n"

/-- The fixed recommended-actions/notes text closing the issue body. -/
def issueBodyFooter : String :=
  "\n### Recommended Actions\n\n"
    ++ "1. **Immediately rotate** any exposed credentials\n"
    ++ "2. **Remove secrets** from the repository history\n"
    ++ "3. **Use environment variables** or secure secret management\n"
    ++ "4. **Add secrets to .gitignore** to prevent future commits\n"
    ++ "5. **Review commit history** for other potential exposures\n\n"
    ++ "### Important Notes\n\n"
    ++ "- This issue was created automatically by GitGuard\n"
    ++ "- Secrets may be visible in commit history even after removal\n"
    ++ "- Consider using tools like `git filter-branch` or `BFG Repo-Cleaner` for history cleanup\n"

/-- Models `FullRepoScanHandler.buildIssueBody`. -/
def buildIssueBody (findings : List Finding) : String :=
  issueBodyHeader
    ++ "**Total findings:** " ++ toString findings.length ++ "\n\n"
    ++ "### Detected Secret Types\n\n"
    ++ String.join ((issueRuleLabels findings).map (issueRuleLine findings))
    ++ "\n### File Locations\n\n"
    ++ String.join (findings.map issueLocLine)
    ++ issueBodyFooter

/-- The `Issues.Create` step of `createSecurityIssue`. -/
def createIssueStep (env : FullScanEnv) (ctx : Ctx) (body : String)
    (calls : List ApiCall) : Except String Unit × List ApiCall :=
  let cc := ApiCall.createIssue ctx issueTitleConst body [issueLabelConst]
  match env.createIssue with
  | .ok _ => (.ok (), calls ++ [cc])
  | .error e => (.error ("failed to create issue: " ++ e), calls ++ [cc])

/-- Models `FullRepoScanHandler.createSecurityIssue`: search for an existing open
issue with the fixed title; a found duplicate suppresses creation, a search
failure is logged as a warning and creation proceeds anyway. -/
def createSecurityIssue (env : FullScanEnv) (ctx : Ctx) (findings : List Finding) :
    Except String Unit × List ApiCall :=
  match findExistingSecurityIssue env ctx with
  | (.error _, calls) => createIssueStep env ctx (buildIssueBody findings) calls
  | (.ok (some _), calls) => (.ok (), calls)
  | (.ok none, calls) => createIssueStep env ctx (buildIssueBody findings) calls

/-- Models `FullRepoScanHandler.scanFullRepository`: repository metadata (clone
URL), installation token, in-memory clone, tree scan, and — only when
findings exist — the security-issue step.  `ctx` is the context value the
caller passed in; every outward call is tagged with it. -/
def scanFullRepository (env : FullScanEnv) (ctx : Ctx) :
    Except String Unit × List ApiCall :=
  match env.repoGet with
  | .error e => (.error ("failed to get default branch: " ++ e), [.repoGet ctx])
  | .ok cloneURL =>
    if cloneURL = "" then (.error "invalid clone URL", [.repoGet ctx])
    else
      match env.token with
      | .error e =>
        (.error ("failed to get installation token: " ++ e), [.repoGet ctx, .createToken ctx])
      | .ok _ =>
        match env.cloneRepo with
        | .error e =>
          (.error ("failed to clone repository: " ++ e),
           [.repoGet ctx, .createToken ctx, .cloneRepo ctx])
        | .ok files =>
          match scanGitRepo env.detect files with
          | .error e =>
            (.error ("failed to scan repository: " ++ e),
             [.repoGet ctx, .createToken ctx, .cloneRepo ctx])
          | .ok findings =>
            if 0 < findings.length then
              ((createSecurityIssue env ctx findings).1,
               [ApiCall.repoGet ctx, .createToken ctx, .cloneRepo ctx]
                 ++ (createSecurityIssue env ctx findings).2)
            else (.ok (), [.repoGet ctx, .createToken ctx, .cloneRepo ctx])

/-- Models `FullRepoScanHandler.Handle` after payload parsing: the commit/branch
filter, the default-branch filter, client creation, then
`scanFullRepository` under the context derived by
`context.WithTimeout(ctx, FullScanTimeout)` — the derived context is in
scope for everything `scanFullRepository` does.  An error result is replaced
by the distinct timeout error when the derived context's deadline was
exceeded. -/
def fullRepoHandle (env : FullScanEnv) (e : PushEvent) :
    Except String Unit × List ApiCall :=
  if e.commits.length == 0 || !(strStartsWith e.ref branchRefPref) then (.ok (), [])
  else
    if e.defaultBranch != trimPref e.ref branchRefPref then (.ok (), [])
    else
      match env.client with
      | .error err => (.error ("failed to create GitHub client: " ++ err), [])
      | .ok _ =>
        match (scanFullRepository env Ctx.derived).1 with
        | .ok _ => (.ok (), (scanFullRepository env Ctx.derived).2)
        | .error err =>
          (if env.deadlineExceeded then .error "repository scan timed out" else .error err,
           (scanFullRepository env Ctx.derived).2)

/-! ## Helper lemmas -/

theorem strAppend_assoc (a b c : String) : a ++ b ++ c = a ++ (b ++ c) := by
  apply String.ext
  simp [String.data_append, List.append_assoc]

theorem strAppend_left_cancel {p a b : String} (h : p ++ a = p ++ b) : a = b := by
  have := congrArg String.data h
  simp only [String.data_append, List.append_cancel_left_eq] at this
  exact String.ext this

theorem exists_find?_of_mem {α : Type} {p : α → Bool} {l : List α}
    (h : ∃ x ∈ l, p x = true) : ∃ y, l.find? p = some y := by
  rcases h with ⟨x, hx, hpx⟩
  induction l with
  | nil => cases hx
  | cons a t ih =>
    by_cases ha : p a = true
    · exact ⟨a, by simp [List.find?, ha]⟩
    · rcases List.mem_cons.mp hx with rfl | hxt
      · exact absurd hpx ha
      · rcases ih hxt with ⟨y, hy⟩
        refine ⟨y, ?_⟩
        have ha' : p a = false := by
          cases hpa : p a
          · rfl
          · exact absurd hpa ha
        simp [List.find?, ha', hy]

theorem scanChangedFilesRun_cons_congr (detect : String → List Finding) (c : GHClient)
    (sha : String) (g : CommitFile) {X Y : List CommitFile}
    (h : scanChangedFilesRun detect c sha X = scanChangedFilesRun detect c sha Y) :
    scanChangedFilesRun detect c sha (g :: X) = scanChangedFilesRun detect c sha (g :: Y) := by
  simp only [scanChangedFilesRun, h]

theorem scanChangedFilesRun_skip_middle (detect : String → List Finding) (c : GHClient)
    (sha : String) (f : CommitFile) (hf : shouldSkipFile f = true) :
    ∀ l₁ l₂, scanChangedFilesRun detect c sha (l₁ ++ f :: l₂)
      = scanChangedFilesRun detect c sha (l₁ ++ l₂) := by
  intro l₁ l₂
  induction l₁ with
  | nil => simp only [List.nil_append, scanChangedFilesRun, hf, if_true]
  | cons g t ih => exact scanChangedFilesRun_cons_congr detect c sha g ih

theorem scanTreeFiles_cons_congr (detect : String → List Finding) (g : TreeFile)
    {X Y : List TreeFile} (h : scanTreeFiles detect X = scanTreeFiles detect Y) :
    scanTreeFiles detect (g :: X) = scanTreeFiles detect (g :: Y) := by
  simp only [scanTreeFiles, h]

theorem scanTreeFiles_skip_middle (detect : String → List Finding) (f : TreeFile)
    (hf : shouldSkipTreeFile f = true) :
    ∀ l₁ l₂, scanTreeFiles detect (l₁ ++ f :: l₂) = scanTreeFiles detect (l₁ ++ l₂) := by
  intro l₁ l₂
  induction l₁ with
  | nil => simp only [List.nil_append, scanTreeFiles, hf, if_true]
  | cons g t ih => exact scanTreeFiles_cons_congr detect g ih

/-! ## Claims -/

/-- Claim C3: the diff resolver first requests the comparison `sha~1`
against `sha`; exactly when that first comparison fails it retries with the
fixed empty-tree SHA as base; when both comparisons fail it returns an error
whose message contains "failed to get commit diff", and the commit scan is
aborted (error result, no file content fetched). -/
theorem claim3_diff_fallback (detect : String → List Finding) (c : GHClient) (sha : String) :
    ((∃ comp, c.compare (sha ++ "~1") sha = .ok comp) →
       (getCommitDiffRun c sha).2 = [(sha ++ "~1", sha)]) ∧
    ((∃ e, c.compare (sha ++ "~1") sha = .error e) →
       (getCommitDiffRun c sha).2 = [(sha ++ "~1", sha), (emptyTreeSHA, sha)]) ∧
    (∀ e₁ e₂, c.compare (sha ++ "~1") sha = .error e₁ →
       c.compare emptyTreeSHA sha = .error e₂ →
       (getCommitDiffRun c sha).1 = .error ("failed to get commit diff: " ++ e₂) ∧
       (scanCommitDet detect c sha).1 = .error ("failed to get commit diff: " ++ e₂) ∧
       (scanCommitDet detect c sha).2.2 = []) := by
  refine ⟨?_, ?_, ?_⟩
  · rintro ⟨comp, hc⟩
    simp [getCommitDiffRun, hc]
  · rintro ⟨e, hc⟩
    rcases h2 : c.compare emptyTreeSHA sha with e2 | comp2 <;>
      simp [getCommitDiffRun, hc, h2]
  · intro e₁ e₂ h1 h2
    refine ⟨?_, ?_, ?_⟩ <;> simp [getCommitDiffRun, scanCommitDet, h1, h2]

/-- Claim C5: the aggregated `ScanResult` has `leakCount` equal to the number
of findings, `hasLeaks` true exactly when `leakCount > 0`, and `leakSummary`
holding exactly one entry `"- " ++ r` for each distinct non-empty rule ID
`r` among the findings; findings with an empty rule ID count towards
`leakCount` but never contribute a summary entry. -/
theorem claim5_aggregate_result (findings : List Finding) :
    (buildScanResult findings).leakCount = findings.length ∧
    ((buildScanResult findings).hasLeaks = true ↔ 0 < (buildScanResult findings).leakCount) ∧
    (∀ s, s ∈ (buildScanResult findings).leakSummary ↔
       ∃ rule, rule ≠ "" ∧ rule ∈ findings.map Finding.ruleID ∧ s = leakSummaryPref ++ rule) ∧
    (∀ rule, rule ≠ "" →
       ((buildScanResult findings).leakSummary.count (leakSummaryPref ++ rule)
         = if rule ∈ findings.map Finding.ruleID then 1 else 0)) := by
  refine ⟨rfl, ?_, ?_, ?_⟩
  · simp [buildScanResult]
  · intro s
    simp only [buildScanResult, List.mem_map, List.mem_dedup, List.mem_filter, bne_iff_ne,
      ne_eq]
    constructor
    · rintro ⟨r, ⟨hr, hne⟩, rfl⟩
      exact ⟨r, hne, hr, rfl⟩
    · rintro ⟨r, hne, hr, rfl⟩
      exact ⟨r, ⟨hr, hne⟩, rfl⟩
  · intro rule hrule
    have hinj : Function.Injective (fun r => leakSummaryPref ++ r) := by
      intro a b h
      exact strAppend_left_cancel h
    have hc : ((((findings.map Finding.ruleID).filter (fun r => r != "")).dedup).map
          (fun r => leakSummaryPref ++ r)).count (leakSummaryPref ++ rule)
        = (((findings.map Finding.ruleID).filter (fun r => r != "")).dedup).count rule :=
      List.count_map_of_injective _ _ hinj rule
    show ((((findings.map Finding.ruleID).filter (fun r => r != "")).dedup).map
        (fun r => leakSummaryPref ++ r)).count (leakSummaryPref ++ rule) = _
    rw [hc, List.count_dedup]
    by_cases hmem : rule ∈ findings.map Finding.ruleID
    · simp [List.mem_filter, hmem, hrule]
    · simp [List.mem_filter, hmem]

/-- Claim C8: in diff-mode content resolution, a removed file is skipped (so
never content-fetched); a file with more than `MaxFileChanges` changes is
skipped; a skipped file is never fetched and contributes zero findings; a
non-removed file with exactly `MaxFileChanges` changes is not skipped, its
content is fetched, and (when the fetch yields non-empty content) it is
scanned. -/
theorem claim8_diff_file_filter (detect : String → List Finding) (c : GHClient)
    (sha : String) (f : CommitFile) :
    (f.status = fileStatusRemoved → shouldSkipFile f = true) ∧
    (maxFileChanges < f.changes → shouldSkipFile f = true) ∧
    (∀ l₁ l₂, shouldSkipFile f = true →
       scanChangedFilesRun detect c sha (l₁ ++ f :: l₂)
         = scanChangedFilesRun detect c sha (l₁ ++ l₂)) ∧
    (f.status ≠ fileStatusRemoved → f.changes = maxFileChanges →
       shouldSkipFile f = false ∧
       (scanChangedFilesRun detect c sha [f]).fetched = [f.filename] ∧
       (∀ content, c.getContents f.filename sha = .ok content → content ≠ "" →
          (scanChangedFilesRun detect c sha [f]).scanned = [f.filename] ∧
          (scanChangedFilesRun detect c sha [f]).findings = detect content)) := by
  refine ⟨?_, ?_, ?_, ?_⟩
  · intro h
    simp [shouldSkipFile, h]
  · intro h
    simp [shouldSkipFile, h]
  · intro l₁ l₂ h
    exact scanChangedFilesRun_skip_middle detect c sha f h l₁ l₂
  · intro hst hch
    have hskip : shouldSkipFile f = false := by
      simp [shouldSkipFile, hst, hch, maxFileChanges]
    refine ⟨hskip, ?_, ?_⟩
    · rcases hcon : c.getContents f.filename sha with e | content
      · simp [scanChangedFilesRun, hskip, hcon]
      · by_cases hemp : content = "" <;>
          simp [scanChangedFilesRun, hskip, hcon, hemp]
    · intro content hcon hne
      constructor <;> simp [scanChangedFilesRun, hskip, hcon, hne]

/-- Claim C10: a tree file in the full-repository scan is skipped exactly
when its byte size exceeds `MaxFileChanges` (1000), or its lowercased name
ends with one of the fixed binary extensions, or its path contains one of
the fixed skip-path substrings (case-sensitively); consequently a tree file
larger than 1000 bytes contributes zero findings to the full-repo report. -/
theorem claim10_tree_file_filter :
    (∀ f : TreeFile, shouldSkipTreeFile f = true ↔
       (maxFileChanges < f.size
         ∨ (∃ ext ∈ binaryExtensions, strEndsWith (strToLower f.name) ext = true)
         ∨ (∃ p ∈ skipPaths, strContains f.name p = true))) ∧
    (∀ (detect : String → List Finding) (l₁ l₂ : List TreeFile) (f : TreeFile),
       maxFileChanges < f.size →
       scanGitRepo detect (l₁ ++ f :: l₂) = scanGitRepo detect (l₁ ++ l₂)) := by
  constructor
  · intro f
    simp [shouldSkipTreeFile, List.any_eq_true, or_assoc]
  · intro detect l₁ l₂ f hsize
    have hskip : shouldSkipTreeFile f = true := by
      simp [shouldSkipTreeFile, hsize]
    unfold scanGitRepo
    rw [scanTreeFiles_skip_middle detect f hskip l₁ l₂]

/-- Claim C2: for every detector result, the check-run conclusion mapping
holds: with zero leaks the output is conclusion "success" with the fixed
clean title/summary; with leaks the conclusion is "failure", the summary
contains the literal leak count, and the "types of secrets found" section is
appended exactly when the leak summary is non-empty. -/
theorem claim2_conclusion_mapping (findings : List Finding) :
    ((buildScanResult findings).leakCount = 0 →
       buildCheckRunOutput (buildScanResult findings)
         = (conclusionSuccess, checkRunTitleClean, checkRunSummaryClean)) ∧
    (0 < (buildScanResult findings).leakCount →
       (buildCheckRunOutput (buildScanResult findings)).1 = conclusionFailure ∧
       (buildCheckRunOutput (buildScanResult findings)).2.1 = checkRunTitleSecrets ∧
       (∃ pre post, (buildCheckRunOutput (buildScanResult findings)).2.2
           = pre ++ toString (buildScanResult findings).leakCount ++ post) ∧
       ((∃ rest, (buildCheckRunOutput (buildScanResult findings)).2.2
            = sprintfSecretsSummary (buildScanResult findings).leakCount
              ++ checkRunSummaryTypes ++ rest)
         ↔ (buildScanResult findings).leakSummary ≠ [])) := by
  constructor
  · intro h
    have h0 : findings.length = 0 := h
    have hnil : findings = [] := List.length_eq_zero.mp h0
    subst hnil
    rfl
  · intro h
    have hl : (buildScanResult findings).hasLeaks = true := by
      simp only [buildScanResult]
      exact decide_eq_true h
    rcases hcase : (buildScanResult findings).leakSummary with _ | ⟨s0, srest⟩
    · have hlen : ¬ 0 < (buildScanResult findings).leakSummary.length := by
        simp [hcase]
      refine ⟨?_, ?_, ?_, ?_⟩
      · simp [buildCheckRunOutput, hl]
      · simp [buildCheckRunOutput, hl]
      · refine ⟨summarySecretsPre, summarySecretsPost, ?_⟩
        simp [buildCheckRunOutput, hl, hlen, sprintfSecretsSummary]
      · constructor
        · rintro ⟨rest, hrest⟩
          exfalso
          have hbase : (buildCheckRunOutput (buildScanResult findings)).2.2
              = sprintfSecretsSummary (buildScanResult findings).leakCount := by
            simp [buildCheckRunOutput, hl, hlen]
          rw [hbase] at hrest
          have := congrArg String.length hrest
          simp only [String.length_append] at this
          have htypes : 0 < checkRunSummaryTypes.length := by decide
          omega
        · intro hne
          exact absurd rfl hne
    · have hlen : 0 < (buildScanResult findings).leakSummary.length := by
        simp [hcase]
      have hsum : (buildCheckRunOutput (buildScanResult findings)).2.2
          = sprintfSecretsSummary (buildScanResult findings).leakCount
            ++ checkRunSummaryTypes
            ++ String.intercalate "\n" (buildScanResult findings).leakSummary := by
        simp [buildCheckRunOutput, hl, hlen]
      refine ⟨?_, ?_, ?_, ?_⟩
      · simp [buildCheckRunOutput, hl]
      · simp [buildCheckRunOutput, hl]
      · refine ⟨summarySecretsPre,
          summarySecretsPost ++ (checkRunSummaryTypes
            ++ String.intercalate "\n" (buildScanResult findings).leakSummary), ?_⟩
        rw [hsum]
        simp only [sprintfSecretsSummary, strAppend_assoc]
      · constructor
        · intro _
          simp [hcase]
        · intro _
          refine ⟨String.intercalate "\n" (buildScanResult findings).leakSummary, ?_⟩
          rw [hsum, strAppend_assoc]

/-- Claim C9: the full-repo issue body consists, in fixed order, of the
header, the total findings count (counting empty-rule findings), the
secret-types section with exactly one line per distinct rule label (empty
rule IDs rendered as "unknown") carrying per-rule occurrence counts, the
file-locations section listing every finding in the original order (an
empty path rendered as "unknown file"), and the fixed recommended-actions
footer. -/
theorem claim9_issue_body (findings : List Finding) :
    (buildIssueBody findings
      = issueBodyHeader ++ "**Total findings:** " ++ toString findings.length ++ "\n\n"
        ++ "### Detected Secret Types\n\n"
        ++ String.join ((issueRuleLabels findings).map (issueRuleLine findings))
        ++ "\n### File Locations\n\n"
        ++ String.join (findings.map issueLocLine)
        ++ issueBodyFooter) ∧
    (issueRuleLabels findings).Nodup ∧
    (∀ r, r ∈ issueRuleLabels findings ↔ ∃ f ∈ findings, normRuleID f = r) ∧
    (∀ r, findings.countP (fun f => normRuleID f == r)
        = (findings.filter (fun f => normRuleID f == r)).length) ∧
    (∀ f : Finding, issueLocLine f
        = "- `" ++ (if f.file = "" then "unknown file" else f.file) ++ "` (line "
          ++ toString f.startLine ++ ")\n") := by
  refine ⟨rfl, ?_, ?_, ?_, fun f => rfl⟩
  · exact List.nodup_dedup _
  · intro r
    simp [issueRuleLabels, List.mem_dedup, List.mem_map]
  · intro r
    exact List.countP_eq_length_filter _ _

/-- Claim C1: whenever check-run creation succeeds, the orchestrator always
issues an update to status "completed" for that check run — with conclusion
"failure" and the fixed generic error title/summary before returning the
error when the scan fails, and with the conclusion/title/summary built from
the scan result when it succeeds.  The check run is never abandoned
in_progress. -/
theorem claim1_check_run_always_completed (env : CommitScanEnv) (sha : String) (id : Nat)
    (h : env.createCheckRun = .ok id) :
    (∃ concl title summary,
       CheckCall.update id checkRunName statusCompleted concl title summary
         ∈ (scanCommitApp env sha).2) ∧
    (∀ e, env.scan = .error e →
       CheckCall.update id checkRunName statusCompleted conclusionFailure
           checkRunTitleError checkRunSummaryError ∈ (scanCommitApp env sha).2 ∧
       (scanCommitApp env sha).1 = .error ("failed to scan commit with gitleaks: " ++ e)) ∧
    (∀ r, env.scan = .ok r →
       CheckCall.update id checkRunName statusCompleted (buildCheckRunOutput r).1
           (buildCheckRunOutput r).2.1 (buildCheckRunOutput r).2.2
         ∈ (scanCommitApp env sha).2) := by
  refine ⟨?_, ?_, ?_⟩
  · rcases hscan : env.scan with e | r
    · exact ⟨conclusionFailure, checkRunTitleError, checkRunSummaryError,
        by simp [scanCommitApp, h, hscan]⟩
    · refine ⟨(buildCheckRunOutput r).1, (buildCheckRunOutput r).2.1,
        (buildCheckRunOutput r).2.2, ?_⟩
      rcases hupd : env.update with e | u <;>
        simp [scanCommitApp, h, hscan, hupd]
  · intro e hscan
    constructor <;> simp [scanCommitApp, h, hscan]
  · intro r hscan
    rcases hupd : env.update with e | u <;>
      simp [scanCommitApp, h, hscan, hupd]

/-- Concrete environment for the C1 witness: creation succeeds with ID 1,
the scan fails. -/
def c1Env : CommitScanEnv :=
  { createCheckRun := .ok 1, scan := .error "boom", update := .ok () }

/-- Witness for C1 at a concrete environment: check-run creation succeeded
with ID 1, and an update to "completed" appears in the call log. -/
theorem claim1_witness :
    ∃ concl title summary,
      CheckCall.update 1 checkRunName statusCompleted concl title summary
        ∈ (scanCommitApp c1Env "abc123").2 :=
  (claim1_check_run_always_completed c1Env "abc123" 1 rfl).1

/-- Claim C4: a push with zero commits or a non-branch ref makes both
handlers return success with zero GitHub API calls, and the full-repo
handler issues zero API calls unless the stripped ref equals the default
branch under exact case-sensitive comparison. -/
theorem claim4_event_filter (cenv : CommitHandlerEnv) (fenv : FullScanEnv) (e : PushEvent) :
    (e.commits = [] ∨ strStartsWith e.ref branchRefPref = false →
       commitHandlerHandle cenv e = (.ok (), []) ∧ fullRepoHandle fenv e = (.ok (), [])) ∧
    (e.defaultBranch ≠ trimPref e.ref branchRefPref →
       fullRepoHandle fenv e = (.ok (), [])) := by
  constructor
  · rintro (h | h) <;>
      simp [commitHandlerHandle, shouldSkipEvent, fullRepoHandle, h]
  · intro h
    by_cases hskip : e.commits.length == 0 || !(strStartsWith e.ref branchRefPref)
    · simp [fullRepoHandle, hskip]
    · simp [fullRepoHandle, hskip, h]

/-- Number of `Issues.Create` calls in a call log. -/
def countCreates (l : List ApiCall) : Nat :=
  (l.filter (fun a => match a with
    | .createIssue _ _ _ _ => true
    | _ => false)).length

/-- Claim C6: when the full-repo scan has findings, an issue is created
exactly when the duplicate search does not find an open "security"-labeled
issue with the fixed title: a found duplicate suppresses creation and the
step returns success having issued only the list call; no duplicate found
means exactly one create call; a failed search still leads to exactly one
create call. -/
theorem claim6_issue_dedup (env : FullScanEnv) (ctx : Ctx) (findings : List Finding) :
    (∀ issues, env.listIssues = .ok issues →
       (∃ i ∈ issues, i.title = issueTitleConst) →
       createSecurityIssue env ctx findings
         = (.ok (), [ApiCall.listIssues ctx "open" [issueLabelConst] 10])) ∧
    (∀ issues, env.listIssues = .ok issues →
       (∀ i ∈ issues, i.title ≠ issueTitleConst) →
       countCreates (createSecurityIssue env ctx findings).2 = 1) ∧
    (∀ err, env.listIssues = .error err →
       countCreates (createSecurityIssue env ctx findings).2 = 1) := by
  refine ⟨?_, ?_, ?_⟩
  · intro issues hlist hex
    have hfind : ∃ y, issues.find? (fun i => i.title == issueTitleConst) = some y := by
      apply exists_find?_of_mem
      rcases hex with ⟨i, hi, ht⟩
      exact ⟨i, hi, by simp [ht]⟩
    rcases hfind with ⟨y, hy⟩
    simp [createSecurityIssue, findExistingSecurityIssue, hlist, hy]
  · intro issues hlist hnone
    have hfind : issues.find? (fun i => i.title == issueTitleConst) = none := by
      rw [List.find?_eq_none]
      intro i hi
      simp [hnone i hi]
    rcases hcr : env.createIssue with e | n <;>
      simp [createSecurityIssue, findExistingSecurityIssue, createIssueStep, hlist, hfind,
        hcr, countCreates]
  · intro err hlist
    rcases hcr : env.createIssue with e | n <;>
      simp [createSecurityIssue, findExistingSecurityIssue, createIssueStep, hlist, hcr,
        countCreates]

theorem createIssueStep_ctx (env : FullScanEnv) (ctx : Ctx) (body : String)
    (calls : List ApiCall) (hcalls : ∀ call ∈ calls, ApiCall.ctxOf call = ctx) :
    ∀ call ∈ (createIssueStep env ctx body calls).2, ApiCall.ctxOf call = ctx := by
  intro call hcall
  rcases hcr : env.createIssue with e | n <;>
    simp only [createIssueStep, hcr] at hcall <;>
    rcases List.mem_append.mp hcall with hin | hin
  · exact hcalls call hin
  · simp only [List.mem_singleton] at hin
    subst hin
    rfl
  · exact hcalls call hin
  · simp only [List.mem_singleton] at hin
    subst hin
    rfl

theorem createSecurityIssue_ctx (env : FullScanEnv) (ctx : Ctx) (findings : List Finding) :
    ∀ call ∈ (createSecurityIssue env ctx findings).2, ApiCall.ctxOf call = ctx := by
  have hlist : ∀ call ∈ [ApiCall.listIssues ctx "open" [issueLabelConst] 10],
      ApiCall.ctxOf call = ctx := by
    intro call hcall
    simp only [List.mem_singleton] at hcall
    subst hcall
    rfl
  intro call hcall
  rcases hl : env.listIssues with e | issues
  · simp only [createSecurityIssue, findExistingSecurityIssue, hl] at hcall
    exact createIssueStep_ctx env ctx _ _ hlist call hcall
  · rcases hf : issues.find? (fun i => i.title == issueTitleConst) with _ | y <;>
      simp only [createSecurityIssue, findExistingSecurityIssue, hl, hf] at hcall
    · exact createIssueStep_ctx env ctx _ _ hlist call hcall
    · simp only [List.mem_singleton] at hcall
      subst hcall
      rfl

theorem scanFullRepository_ctx (env : FullScanEnv) (ctx : Ctx) :
    ∀ call ∈ (scanFullRepository env ctx).2, ApiCall.ctxOf call = ctx := by
  intro call hcall
  unfold scanFullRepository at hcall
  repeat' split at hcall
  all_goals
    first
      | (rcases List.mem_append.mp hcall with hin | hin
         · fin_cases hin <;> rfl
         · exact createSecurityIssue_ctx env ctx _ call hin)
      | (fin_cases hcall <;> rfl)

theorem fullRepoHandle_log (env : FullScanEnv) (e : PushEvent) :
    (fullRepoHandle env e).2 = []
      ∨ (fullRepoHandle env e).2 = (scanFullRepository env Ctx.derived).2 := by
  unfold fullRepoHandle
  split
  · left
    rfl
  · split
    · left
      rfl
    · split
      · left
        rfl
      · right
        rcases h : (scanFullRepository env Ctx.derived).1 with err | u <;> simp [h]

/-- Concrete environment for the C7 counterexample: the clone yields one
scannable file, the detector reports one finding, no duplicate issue
exists, so the issue API calls are made — under the derived context. -/
def c7Env : FullScanEnv :=
  { client := .ok ()
    repoGet := .ok "https://example.com/o/r.git"
    token := .ok "tok"
    cloneRepo := .ok [{ name := "config.py", size := 10, content := .ok "AKIA" }]
    detect := fun _ => [{ ruleID := "aws-access-key", file := "", startLine := 3 }]
    listIssues := .ok []
    createIssue := .ok 7
    deadlineExceeded := false }

/-- Concrete push event for the C7 counterexample: a push to the default
branch "main". -/
def c7Event : PushEvent :=
  { ref := "refs/heads/main", commits := ["s1"], defaultBranch := "main" }

/-- Counterexample to claim C7 as stated: the claim asserts the derived
timeout context covers the clone and scan but NOT the issue API calls that
follow; on this concrete run the handler issues both issue API calls (the
duplicate search and the creation) under the derived timeout context, since
`scanFullRepository` — which performs them — receives the context built by
`context.WithTimeout`. -/
theorem claim7_counterexample :
    ((fullRepoHandle c7Env c7Event).2.filter ApiCall.isIssueCall).map ApiCall.ctxOf
        = [Ctx.derived, Ctx.derived]
      ∧ Ctx.derived ≠ Ctx.base := by
  constructor
  · decide
  · decide

/-- Claim C7 (amended): the full-repository scan runs under the context
derived by `context.WithTimeout` with the fixed 60-second timeout, and that
derived context covers every outward call the handler makes — the metadata
fetch, token minting, clone, scan, and also the issue API calls, which all
happen inside `scanFullRepository`; a context-deadline-exceeded during any
of those steps is translated into the distinct "repository scan timed out"
error rather than a generic clone/scan error. -/
theorem claim7_timeout_scope (env : FullScanEnv) (e : PushEvent) :
    (∀ call ∈ (fullRepoHandle env e).2, ApiCall.ctxOf call = Ctx.derived) ∧
    (e.commits ≠ [] → strStartsWith e.ref branchRefPref = true →
       e.defaultBranch = trimPref e.ref branchRefPref →
       env.client = .ok () →
       env.deadlineExceeded = true →
       ∀ err, (scanFullRepository env Ctx.derived).1 = .error err →
       (fullRepoHandle env e).1 = .error "repository scan timed out") ∧
    fullScanTimeoutSeconds = 60 := by
  refine ⟨?_, ?_, rfl⟩
  · intro call hcall
    rcases fullRepoHandle_log env e with h | h
    · rw [h] at hcall
      cases hcall
    · rw [h] at hcall
      exact scanFullRepository_ctx env Ctx.derived call hcall
  · intro h1 h2 h3 hcl hdl err herr
    have hg1 : (e.commits.length == 0 || !(strStartsWith e.ref branchRefPref)) = false := by
      simp [h2, h1]
    have hg2 : (e.defaultBranch != trimPref e.ref branchRefPref) = false := by
      simp [h3]
    simp [fullRepoHandle, hg1, hg2, hcl, herr, hdl]

end GG
